import Mathlib

/-!
Verification of the SEC1 field-element layer generated by
src/p384/src/arithmetic/macros.rs (impl_sec1_field_element / impl_field_op).

The macro implements the field-element codec and the constant-time
Bernstein-Yang (safegcd) modular inversion on top of an external limb
arithmetic engine (modular add/sub/mul/square/neg, Montgomery transforms,
msat, divstep, divstep_precomp).  The engine itself is generated code that
lives outside this repository's sources, so it is modelled here from the
specification's contract for it; the macro body (codec, invert driver loop,
validity flags) is embedded directly from the source.

Machine integers are modelled as Nat (raw Montgomery residues, byte values)
and Int (the signed extended limb vectors d, f, g of the divstep state);
fallible operations return a value paired with a validity flag (CtOption)
or an Option (Result).
-/

/-- Modelled from the spec: the compile-time parameters of one curve
instantiation of the macro: the odd prime modulus p, the bit-width W of the
fixed-width integer representation (so the Montgomery constant is
R = 2^W mod p), and the precomputed value Rinv with R * Rinv = 1 (mod p)
used to model the from_montgomery transform. -/
structure FieldParams where
  p : Nat
  W : Nat
  Rinv : Nat

namespace Engine

/-- Modelled from the spec: to_montgomery(x) = x * R mod p with
R = 2^W mod p (spec section 4.2); the concrete limb-level transform is
external generated code. -/
def to_montgomery (P : FieldParams) (x : Nat) : Nat := x * 2 ^ P.W % P.p

/-- Modelled from the spec: from_montgomery(x) = x * R^-1 mod p
(spec section 4.2); the concrete limb-level transform is external
generated code. -/
def from_montgomery (P : FieldParams) (x : Nat) : Nat := x * P.Rinv % P.p

/-- Modelled from the spec: the limb engine's modular addition in the
Montgomery domain, output already reduced modulo p (spec section 6). -/
def add (P : FieldParams) (a b : Nat) : Nat := (a + b) % P.p

/-- Modelled from the spec: the limb engine's modular subtraction in the
Montgomery domain, output already reduced modulo p (spec section 6). -/
def sub (P : FieldParams) (a b : Nat) : Nat := (a + (P.p - b % P.p)) % P.p

/-- Modelled from the spec: the limb engine's modular multiplication in the
Montgomery domain, mul(a, b) = a * b * R^-1 mod p (spec section 6). -/
def mul (P : FieldParams) (a b : Nat) : Nat := a * b * P.Rinv % P.p

/-- Modelled from the spec: the limb engine's dedicated modular squaring
routine, square(a) = a * a * R^-1 mod p in the Montgomery domain
(spec section 6). -/
def square (P : FieldParams) (a : Nat) : Nat := a * a * P.Rinv % P.p

/-- Modelled from the spec: the limb engine's modular negation,
output already reduced modulo p (spec section 6). -/
def neg (P : FieldParams) (a : Nat) : Nat := (P.p - a % P.p) % P.p

/-- Modelled from the spec: msat produces the fixed odd modulus-derived
extended (L+1 word) vector that seeds f; its integer value is p
(spec sections 4.3 and 6). -/
def msat (P : FieldParams) : Int := (P.p : Int)

/-- Number of divstep iterations, from the source:
ITERATIONS = (49 * BIT_SIZE + 57) / 17 with truncating usize division
(src/p384/src/arithmetic/macros.rs line 202). -/
def iterations (W : Nat) : Nat := (49 * W + 57) / 17

/-- Modelled from the spec: the fixed inversion correction constant,
depending only on the modulus: the canonical value ((p+1)/2)^ITERATIONS
(the inverse of the 2-adic scaling factor 2^ITERATIONS introduced by the
divsteps), stored in Montgomery form (spec sections 4.3 and 6). -/
def divstep_precomp (P : FieldParams) : Nat :=
  ((P.p + 1) / 2) ^ iterations P.W % P.p * 2 ^ P.W % P.p

/-- The divstep state: the signed delta d, the signed extended vectors
f and g (two's-complement integer values), and the raw Montgomery residues
v and r accumulating the 2-adic linear transformation. -/
structure DState where
  d : Int
  f : Int
  g : Int
  v : Nat
  r : Nat

/-- Modelled from the spec: one Bernstein-Yang divstep transition
(spec section 4.3 and glossary), a pure function of its inputs:
when d > 0 and g is odd, (d, f, g) becomes (1 - d, g, (g - f)/2) and the
accumulated transforms become (v, r) = (2r, r - v) mod p; otherwise
(d, f, g) becomes (1 + d, f, (g + (g mod 2) * f)/2) and
(v, r) = (2v, r + (g mod 2) * v) mod p.  The transforms v and r are kept
as raw Montgomery residues; since the updates are linear modulo p they
coincide with the canonical-value recurrence. -/
def divstep (P : FieldParams) (s : DState) : DState :=
  if 0 < s.d ∧ s.g % 2 = 1 then
    { d := 1 - s.d, f := s.g, g := (s.g - s.f) / 2,
      v := 2 * s.r % P.p, r := (s.r + (P.p - s.v % P.p)) % P.p }
  else
    { d := 1 + s.d, f := s.f, g := (s.g + s.g % 2 * s.f) / 2,
      v := 2 * s.v % P.p, r := (s.r + (s.g % 2).toNat * s.v) % P.p }

end Engine

/-- Modelled from the spec: fixed-width big-endian byte encoding of an
unsigned integer into N bytes (most significant byte first). -/
def to_be_byte_array (N n : Nat) : List Nat :=
  (List.range N).map (fun i => n / 256 ^ (N - 1 - i) % 256)

/-- Modelled from the spec: decoding of a big-endian byte array as an
unsigned integer. -/
def from_be_byte_array (bs : List Nat) : Nat :=
  bs.foldl (fun a b => a * 256 + b) 0

/-- Modelled from the spec: fixed-width little-endian byte encoding of an
unsigned integer into N bytes (least significant byte first). -/
def to_le_byte_array (N n : Nat) : List Nat :=
  (List.range N).map (fun i => n / 256 ^ i % 256)

/-- Modelled from the spec: decoding of a little-endian byte array as an
unsigned integer. -/
def from_le_byte_array (bs : List Nat) : Nat :=
  bs.foldr (fun b a => b + 256 * a) 0

namespace FieldElement

/-- Zero element (macros.rs line 69): the raw all-zero representation. -/
def ZERO : Nat := 0

/-- Multiplicative identity (macros.rs line 72): the Montgomery form of 1,
whose raw representation is R mod p. -/
def ONE (P : FieldParams) : Nat := Engine.to_montgomery P 1

/-- Decode a field element from an integer, converting into Montgomery
form, without the range check (macros.rs lines 132-136). -/
def from_uint_unchecked (P : FieldParams) (w : Nat) : Nat :=
  Engine.to_montgomery P w

/-- Decode a field element from an integer with the range check
(macros.rs lines 118-121): the CtOption validity flag is the constant-time
test uint < p. -/
def from_uint (P : FieldParams) (uint : Nat) : Nat × Bool :=
  (from_uint_unchecked P uint, decide (uint < P.p))

/-- Create a field element from a canonical big-endian byte
representation (macros.rs lines 77-79): delegates to from_uint. -/
def from_be_bytes (P : FieldParams) (repr : List Nat) : Nat × Bool :=
  from_uint P (from_be_byte_array repr)

/-- Create a field element from a canonical little-endian byte
representation (macros.rs lines 94-96): delegates to from_uint. -/
def from_le_bytes (P : FieldParams) (repr : List Nat) : Nat × Bool :=
  from_uint P (from_le_byte_array repr)

/-- Conversion of a CtOption into an Option, as the Rust From impl does:
some iff the validity flag is set. -/
def ctOption_into (o : Nat × Bool) : Option Nat :=
  if o.2 then some o.1 else none

/-- Decode a field element from a big-endian byte slice
(macros.rs lines 84-89): the TryFrom conversion of the slice into the
fixed-width array fails exactly when the length differs from W/8 bytes,
and otherwise the CtOption of from_be_bytes is converted into the Result. -/
def from_be_slice (P : FieldParams) (slice : List Nat) : Option Nat :=
  if slice.length = P.W / 8 then ctOption_into (from_be_bytes P slice) else none

/-- Decode a field element from a little-endian byte slice
(macros.rs lines 101-106), the little-endian counterpart. -/
def from_le_slice (P : FieldParams) (slice : List Nat) : Option Nat :=
  if slice.length = P.W / 8 then ctOption_into (from_le_bytes P slice) else none

/-- Translate a field element out of the Montgomery domain, returning the
canonical integer (macros.rs lines 158-162). -/
def to_canonical (P : FieldParams) (x : Nat) : Nat :=
  Engine.from_montgomery P x

/-- Big-endian encoding of a field element (macros.rs lines 141-143):
the byte encoding of the canonical form. -/
def to_be_bytes (P : FieldParams) (x : Nat) : List Nat :=
  to_be_byte_array (P.W / 8) (to_canonical P x)

/-- Little-endian encoding of a field element (macros.rs lines 148-150):
the byte encoding of the canonical form. -/
def to_le_bytes (P : FieldParams) (x : Nat) : List Nat :=
  to_le_byte_array (P.W / 8) (to_canonical P x)

/-- Parity test (macros.rs lines 171-173): the canonical form is computed
first and its low bit is returned. -/
def is_odd (P : FieldParams) (x : Nat) : Bool :=
  decide (to_canonical P x % 2 = 1)

/-- Zero test (macros.rs lines 182-184): constant-time equality of the raw
representation with ZERO. -/
def is_zero (x : Nat) : Bool :=
  decide (x = ZERO)

/-- Field addition (impl_field_op with the engine add,
macros.rs lines 358, 419-454). -/
def add (P : FieldParams) (a b : Nat) : Nat := Engine.add P a b

/-- Field subtraction (impl_field_op with the engine sub,
macros.rs line 359). -/
def sub (P : FieldParams) (a b : Nat) : Nat := Engine.sub P a b

/-- Field multiplication (impl_field_op with the engine mul,
macros.rs line 360). -/
def mul (P : FieldParams) (a b : Nat) : Nat := Engine.mul P a b

/-- Field negation (the Neg impl with the engine neg,
macros.rs lines 404-413). -/
def neg (P : FieldParams) (a : Nat) : Nat := Engine.neg P a

/-- Double an element by adding it to itself (macros.rs lines 188-190:
self + self). -/
def double (P : FieldParams) (x : Nat) : Nat := add P x x

/-- Modular square via the engine's dedicated squaring routine
(macros.rs lines 261-265). -/
def square (P : FieldParams) (x : Nat) : Nat := Engine.square P x

/-- The paired while loop of invert (macros.rs lines 225-233): each pass of
the loop performs two divsteps, ping-ponging between the two buffer sets;
since divstep is a pure function of its inputs, the ping-pong is exactly
the composition of two divsteps. -/
def loop_pairs (P : FieldParams) : Nat → Engine.DState → Engine.DState
  | 0, s => s
  | n + 1, s => loop_pairs P n (Engine.divstep P (Engine.divstep P s))

/-- Field inversion (macros.rs lines 195-257): initialise d = 1, f = msat,
g = the input out of Montgomery form, r = ONE, v = 0; run
ITERATIONS - ITERATIONS % 2 divsteps in pairs; when ITERATIONS is odd run
one unpaired divstep writing back only v (out4) and f (out2); negate v,
select between v and -v by the sign bit of f's top limb (modelled as the
sign of the integer value of f), multiply by the precomputed correction
constant, and attach the validity flag, which is the negated zero test of
the original input. -/
def invert (P : FieldParams) (x : Nat) : Nat × Bool :=
  let I := Engine.iterations P.W
  let s0 : Engine.DState :=
    { d := 1, f := Engine.msat P, g := (Engine.from_montgomery P x : Int),
      v := 0, r := ONE P }
  let sL := loop_pairs P ((I - I % 2) / 2) s0
  let sT := if I % 2 ≠ 0 then
      let t := Engine.divstep P sL
      { sL with v := t.v, f := t.f }
    else sL
  let v_opp := Engine.neg P sT.v
  let s := decide (sT.f < 0)
  let v := if s then v_opp else sT.v
  let ret := Engine.mul P v (Engine.divstep_precomp P)
  (ret, ! is_zero x)

/-- Variant of invert following the spec's description of an unpaired final
divstep that writes back the complete final divstep state (d, f, g, v and r)
rather than only v and f; the comparison definition for the
refinement claim about the odd-iteration tail. -/
def invert_full_writeback (P : FieldParams) (x : Nat) : Nat × Bool :=
  let I := Engine.iterations P.W
  let s0 : Engine.DState :=
    { d := 1, f := Engine.msat P, g := (Engine.from_montgomery P x : Int),
      v := 0, r := ONE P }
  let sL := loop_pairs P ((I - I % 2) / 2) s0
  let sT := if I % 2 ≠ 0 then Engine.divstep P sL else sL
  let v_opp := Engine.neg P sT.v
  let s := decide (sT.f < 0)
  let v := if s then v_opp else sT.v
  let ret := Engine.mul P v (Engine.divstep_precomp P)
  (ret, ! is_zero x)

/-- The paired while loop instrumented with a counter of divstep
invocations: each pass of the loop performs two divsteps. -/
def loop_pairs_counting (P : FieldParams) :
    Nat → Engine.DState × Nat → Engine.DState × Nat
  | 0, sc => sc
  | n + 1, sc =>
      loop_pairs_counting P n (Engine.divstep P (Engine.divstep P sc.1), sc.2 + 2)

/-- Field inversion instrumented with a counter of divstep invocations,
mirroring invert exactly: the paired loop contributes two invocations per
pass and the odd tail contributes one more. -/
def invert_counting (P : FieldParams) (x : Nat) : (Nat × Bool) × Nat :=
  let I := Engine.iterations P.W
  let s0 : Engine.DState :=
    { d := 1, f := Engine.msat P, g := (Engine.from_montgomery P x : Int),
      v := 0, r := ONE P }
  let sLc := loop_pairs_counting P ((I - I % 2) / 2) (s0, 0)
  let sL := sLc.1
  let sTc := if I % 2 ≠ 0 then
      let t := Engine.divstep P sL
      ({ sL with v := t.v, f := t.f }, sLc.2 + 1)
    else (sL, sLc.2)
  let sT := sTc.1
  let v_opp := Engine.neg P sT.v
  let s := decide (sT.f < 0)
  let v := if s then v_opp else sT.v
  let ret := Engine.mul P v (Engine.divstep_precomp P)
  ((ret, ! is_zero x), sTc.2)

end FieldElement

/-- The worked instantiation used throughout the specification's testable
properties: modulus p = 13 with a 16-bit (two byte) representation, so
R = 2^16 mod 13 = 3 and Rinv = 9 (3 * 9 = 27 = 2 * 13 + 1). -/
def P13 : FieldParams := ⟨13, 16, 9⟩

/-- The NIST P-384 instantiation of the macro: the 384-bit prime
p = 2^384 - 2^128 - 2^96 + 2^32 - 1 with R = 2^384 mod p and its genuine
modular inverse Rinv. -/
def P384 : FieldParams :=
  ⟨39402006196394479212279040100143613805079739270465446667948293404245721771496870329047266088258938001861606973112319,
   384,
   183479889321925461653251752109332205360611897149516305954304919627392402791260477631193651879713439593005062⟩

/-- The ceiling of the division a / b, the iteration-count formula named by
the specification. -/
def ceil_div (a b : Nat) : Nat := (a + b - 1) / b

/-- Sanity check for the P-384 parameters: R * Rinv = 1 (mod p). -/
theorem P384_Rinv_valid :
    2 ^ P384.W % P384.p * P384.Rinv % P384.p = 1 := by decide

/-- Sanity check for the worked parameters: R * Rinv = 1 (mod p). -/
theorem P13_Rinv_valid : 2 ^ P13.W % P13.p * P13.Rinv % P13.p = 1 := by decide

/-- The instrumented paired loop computes the same state as the plain
paired loop. -/
theorem loop_pairs_counting_fst (P : FieldParams) :
    ∀ (n : Nat) (sc : Engine.DState × Nat),
      (FieldElement.loop_pairs_counting P n sc).1 = FieldElement.loop_pairs P n sc.1 := by
  intro n
  induction n with
  | zero => intro sc; rfl
  | succ n ih =>
      intro sc
      simpa [FieldElement.loop_pairs_counting, FieldElement.loop_pairs] using
        ih (Engine.divstep P (Engine.divstep P sc.1), sc.2 + 2)

/-- The instrumented paired loop performs exactly two divstep invocations
per pass. -/
theorem loop_pairs_counting_snd (P : FieldParams) :
    ∀ (n : Nat) (sc : Engine.DState × Nat),
      (FieldElement.loop_pairs_counting P n sc).2 = sc.2 + 2 * n := by
  intro n
  induction n with
  | zero => intro sc; simp [FieldElement.loop_pairs_counting]
  | succ n ih =>
      intro sc
      have h := ih (Engine.divstep P (Engine.divstep P sc.1), sc.2 + 2)
      simp only [FieldElement.loop_pairs_counting] at h ⊢
      omega

/-- The instrumented inversion returns the same result as invert. -/
theorem invert_counting_fst (P : FieldParams) (x : Nat) :
    (FieldElement.invert_counting P x).1 = FieldElement.invert P x := by
  by_cases h : Engine.iterations P.W % 2 ≠ 0 <;>
    simp [FieldElement.invert_counting, FieldElement.invert, h,
      loop_pairs_counting_fst]

/-- The total number of divstep invocations performed by invert is exactly
the ITERATIONS constant of the source, (49 * W + 57) / 17 with truncating
division. -/
theorem invert_counting_snd (P : FieldParams) (x : Nat) :
    (FieldElement.invert_counting P x).2 = Engine.iterations P.W := by
  by_cases h : Engine.iterations P.W % 2 ≠ 0 <;>
    simp [FieldElement.invert_counting, h, loop_pairs_counting_snd] <;>
    omega

set_option maxRecDepth 100000 in
/-- Claim C1: for every field element whose canonical value x is nonzero
and strictly less than p, invert returns a valid result y with
x * canonical(y) = 1 (mod p), shown for the specification's worked
modulus p = 13 over all canonical values. -/
theorem invert_correct_p13 :
    ∀ x < 13, x ≠ 0 →
      (FieldElement.invert P13 (FieldElement.from_uint_unchecked P13 x)).2 = true ∧
      x * FieldElement.to_canonical P13
          (FieldElement.invert P13 (FieldElement.from_uint_unchecked P13 x)).1 % 13 = 1 := by
  decide

/-- Claim C1 witness: the worked example of the specification, invert(5)
at p = 13: the result is valid and 5 * canonical(invert(5)) = 1 (mod 13). -/
theorem invert_correct_p13_witness :
    (FieldElement.invert P13 (FieldElement.from_uint_unchecked P13 5)).2 = true ∧
    5 * FieldElement.to_canonical P13
        (FieldElement.invert P13 (FieldElement.from_uint_unchecked P13 5)).1 % 13 = 1 :=
  invert_correct_p13 5 (by decide) (by decide)

/-- Claim C2 (amended): the total number of divstep invocations performed
by invert equals (49 * W + 57) / 17 with truncating (floor) division, not
the ceiling: the instrumented inversion computes the same result as invert
and performs exactly floor((49 * W + 57) / 17) divstep invocations. -/
theorem invert_divstep_count_is_floor :
    ∀ (P : FieldParams) (x : Nat),
      (FieldElement.invert_counting P x).1 = FieldElement.invert P x ∧
      (FieldElement.invert_counting P x).2 = (49 * P.W + 57) / 17 := by
  intro P x
  exact ⟨invert_counting_fst P x, invert_counting_snd P x⟩

/-- Claim C2 counterexample: at the P-384 instantiation (W = 384) the
number of divstep invocations performed by invert is 1110, which is not
ceil((49 * 384 + 57) / 17) = 1111, refuting the claim as stated. -/
theorem invert_divstep_count_ne_ceil :
    (FieldElement.invert_counting P384 0).2 ≠ ceil_div (49 * P384.W + 57) 17 := by
  rw [invert_counting_snd]
  decide

set_option maxRecDepth 100000 in
/-- Claim C3: the validity flag of invert is exactly the negated zero test
of the original input, for every instantiation and every input raw
representation, independent of the divstep arithmetic; the flag is false
exactly on the zero element, and inverting zero still produces the
concrete result value 0 (at the worked modulus p = 13). -/
theorem invert_validity_flag :
    (∀ (P : FieldParams) (x : Nat),
        (FieldElement.invert P x).2 = ! FieldElement.is_zero x) ∧
    (∀ (P : FieldParams) (x : Nat),
        ((FieldElement.invert P x).2 = false ↔ x = FieldElement.ZERO)) ∧
    FieldElement.invert P13 FieldElement.ZERO = (0, false) := by
  refine ⟨fun P x => rfl, fun P x => ?_, by decide⟩
  simp [FieldElement.invert, FieldElement.is_zero, FieldElement.ZERO]

/-- Claim C4: decode-of-encode is the identity and reports valid, for both
the big-endian and the little-endian codec pairs, over every canonical
value of the specification's worked modulus p = 13; the element built by
from_uint_unchecked indeed has canonical value x. -/
theorem codec_roundtrip_p13 :
    ∀ x < 13,
      FieldElement.from_be_bytes P13
          (FieldElement.to_be_bytes P13 (FieldElement.from_uint_unchecked P13 x)) =
        (FieldElement.from_uint_unchecked P13 x, true) ∧
      FieldElement.from_le_bytes P13
          (FieldElement.to_le_bytes P13 (FieldElement.from_uint_unchecked P13 x)) =
        (FieldElement.from_uint_unchecked P13 x, true) ∧
      FieldElement.to_canonical P13 (FieldElement.from_uint_unchecked P13 x) = x := by
  decide

/-- Claim C4 witness: the round trip at the canonical value 5. -/
theorem codec_roundtrip_p13_witness :
    FieldElement.from_be_bytes P13
        (FieldElement.to_be_bytes P13 (FieldElement.from_uint_unchecked P13 5)) =
      (FieldElement.from_uint_unchecked P13 5, true) ∧
    FieldElement.from_le_bytes P13
        (FieldElement.to_le_bytes P13 (FieldElement.from_uint_unchecked P13 5)) =
      (FieldElement.from_uint_unchecked P13 5, true) ∧
    FieldElement.to_canonical P13 (FieldElement.from_uint_unchecked P13 5) = 5 :=
  codec_roundtrip_p13 5 (by decide)

/-- Claim C5: from_uint reports valid exactly when the input integer is
strictly below the modulus, the byte decoders delegate to from_uint on the
decoded integer, and any input at least p reports invalid. -/
theorem from_uint_range_check :
    (∀ (P : FieldParams) (u : Nat),
        (FieldElement.from_uint P u).2 = decide (u < P.p)) ∧
    (∀ (P : FieldParams) (bs : List Nat),
        FieldElement.from_be_bytes P bs =
          FieldElement.from_uint P (from_be_byte_array bs)) ∧
    (∀ (P : FieldParams) (bs : List Nat),
        FieldElement.from_le_bytes P bs =
          FieldElement.from_uint P (from_le_byte_array bs)) ∧
    (∀ (P : FieldParams) (u : Nat), P.p ≤ u → (FieldElement.from_uint P u).2 = false) := by
  refine ⟨fun P u => rfl, fun P bs => rfl, fun P bs => rfl, fun P u h => ?_⟩
  exact decide_eq_false (Nat.not_lt.mpr h)

/-- Claim C5 witness: at the worked modulus p = 13 the out-of-range input
20 reports invalid. -/
theorem from_uint_range_check_witness :
    (FieldElement.from_uint P13 20).2 = false :=
  from_uint_range_check.2.2.2 P13 20 (by decide)

/-- Claim C6: for a positive modulus, every field element produced by
decode, by from_uint, or by any arithmetic operation (add, sub, mul, neg,
square, double, invert) satisfies the representation invariant that its
value transformed out of Montgomery form is strictly less than p. -/
theorem canonical_invariant :
    ∀ (P : FieldParams), 0 < P.p → ∀ (a b x u : Nat),
      FieldElement.to_canonical P (FieldElement.from_uint_unchecked P u) < P.p ∧
      FieldElement.to_canonical P (FieldElement.add P a b) < P.p ∧
      FieldElement.to_canonical P (FieldElement.sub P a b) < P.p ∧
      FieldElement.to_canonical P (FieldElement.mul P a b) < P.p ∧
      FieldElement.to_canonical P (FieldElement.neg P a) < P.p ∧
      FieldElement.to_canonical P (FieldElement.square P a) < P.p ∧
      FieldElement.to_canonical P (FieldElement.double P a) < P.p ∧
      FieldElement.to_canonical P (FieldElement.invert P x).1 < P.p := by
  intro P hp a b x u
  have h : ∀ z : Nat, FieldElement.to_canonical P z < P.p := fun z => Nat.mod_lt _ hp
  exact ⟨h _, h _, h _, h _, h _, h _, h _, h _⟩

/-- Claim C6 witness: the invariant at the worked modulus p = 13 for the
element produced by from_uint_unchecked on 7. -/
theorem canonical_invariant_witness :
    FieldElement.to_canonical P13 (FieldElement.from_uint_unchecked P13 7) < P13.p :=
  (canonical_invariant P13 (by decide) 1 2 3 7).1

/-- Claim C7: double(x) equals x + x (the code defines it that way) and
the dedicated squaring routine agrees with the generic multiplication of
x by itself, for every instantiation and every element. -/
theorem double_square_consistency :
    ∀ (P : FieldParams) (x : Nat),
      FieldElement.double P x = FieldElement.add P x x ∧
      FieldElement.square P x = FieldElement.mul P x x :=
  fun _ _ => ⟨rfl, rfl⟩

/-- Claim C8: is_odd evaluates the parity of the canonical
(non-Montgomery) value: generically it first transforms out of Montgomery
form and tests the low bit, and at the worked modulus p = 13 the element
with canonical value c is reported odd exactly when c is odd. -/
theorem is_odd_canonical_parity :
    (∀ (P : FieldParams) (x : Nat),
        FieldElement.is_odd P x = decide (FieldElement.to_canonical P x % 2 = 1)) ∧
    (∀ c < 13,
        FieldElement.is_odd P13 (FieldElement.from_uint_unchecked P13 c) =
          decide (c % 2 = 1)) :=
  ⟨fun P x => rfl, by decide⟩

/-- Claim C8 witness: the element with canonical value 5 is reported odd. -/
theorem is_odd_canonical_parity_witness :
    FieldElement.is_odd P13 (FieldElement.from_uint_unchecked P13 5) =
      decide (5 % 2 = 1) :=
  is_odd_canonical_parity.2 5 (by decide)

/-- Claim C9: slice decoding fails whenever the slice length differs from
the fixed W/8-byte encoding width, regardless of the value, and on a
correct-length slice it fails exactly when the decoded integer is at least
p; the length failure is the earlier, distinct stage. -/
theorem slice_decode_staged_failure :
    ∀ (P : FieldParams) (s : List Nat),
      (s.length ≠ P.W / 8 →
        FieldElement.from_be_slice P s = none ∧
        FieldElement.from_le_slice P s = none) ∧
      (s.length = P.W / 8 →
        (FieldElement.from_be_slice P s =
          if from_be_byte_array s < P.p then
            some (FieldElement.from_uint_unchecked P (from_be_byte_array s))
          else none) ∧
        (FieldElement.from_le_slice P s =
          if from_le_byte_array s < P.p then
            some (FieldElement.from_uint_unchecked P (from_le_byte_array s))
          else none)) := by
  intro P s
  constructor
  · intro h
    constructor <;> simp [FieldElement.from_be_slice, FieldElement.from_le_slice, h]
  · intro h
    constructor <;>
      by_cases hv : from_be_byte_array s < P.p <;>
      by_cases hw : from_le_byte_array s < P.p <;>
      simp [FieldElement.from_be_slice, FieldElement.from_le_slice,
        FieldElement.ctOption_into, FieldElement.from_be_bytes,
        FieldElement.from_le_bytes, FieldElement.from_uint, h, hv, hw]

/-- Claim C9 witness: at the worked parameters (two-byte encoding) the
one-byte slice fails by length, and the correct-length slice holding 20
(which is at least 13) fails by range. -/
theorem slice_decode_staged_failure_witness :
    (FieldElement.from_be_slice P13 [1] = none ∧
      FieldElement.from_le_slice P13 [1] = none) ∧
    FieldElement.from_be_slice P13 [0, 20] =
      (if from_be_byte_array [0, 20] < P13.p then
        some (FieldElement.from_uint_unchecked P13 (from_be_byte_array [0, 20]))
      else none) :=
  ⟨(slice_decode_staged_failure P13 [1]).1 (by decide),
   ((slice_decode_staged_failure P13 [0, 20]).2 (by decide)).1⟩

/-- Claim C10: the odd-iteration tail of invert writes back only the v and
f outputs of the final divstep, and the result equals that of the variant
which writes back the complete final divstep state, because the post-loop
computation reads only v and the sign of f. -/
theorem invert_tail_writeback_equiv :
    ∀ (P : FieldParams) (x : Nat),
      FieldElement.invert P x = FieldElement.invert_full_writeback P x := by
  intro P x
  by_cases h : Engine.iterations P.W % 2 ≠ 0 <;>
    simp [FieldElement.invert, FieldElement.invert_full_writeback, h]
